import Mathlib

/-!
Verification of the extraction-orchestration and content-addressed caching
layer of the ocr_scanner_gemini repository.

The embedding mirrors, in Lean, the Python source files:
 * `src/infrastructure/file_manager.py`   (class `FileManager`)
 * `src/application/text_extraction_service.py` (class `TextExtractionService`)
 * `src/infrastructure/text_extractors.py` (class `GeminiTextExtractor`)

Modelling conventions:
 * The file system is a map from path strings to file values, together with a
   predicate saying which paths fail on open-for-write (simulated I/O error).
 * A file value is either raw image bytes, a parseable flat JSON object of
   string fields (the only shape this system ever writes), or unparseable
   content (`malformed`); `json.load` on the latter raises, which the source
   catches.  The raw byte representation of JSON cache files is not tracked:
   no code path under verification hashes a cache file.
 * Python exceptions are modelled with `Except Unit`; an uncaught exception
   propagates as `.error ()`.
 * `hashlib.md5` is external library code; its digest is modelled as an
   arbitrary pure function `fin : Bytes → String` of the accumulated bytes.
   What IS modelled from the source is the chunked read loop of
   `calculate_md5`, which feeds the file's bytes to the hasher in 4096-byte
   chunks; we prove the accumulated input equals the full file content.
 * The Gemini network client is external; each of the four sub-extractors is
   modelled as a call to an abstract backend keyed by sub-task, which may
   raise (`.error ()`) or return text; the source strips the text and maps
   any exception to the empty string.
-/

namespace OcrScanner

abbrev Bytes := List Nat

/-- A flat JSON object with string values, as written by `json.dump` on the
`to_dict` of a result and read back by `json.load`.  Association list order
models JSON member order; `Dict.get` takes the first binding, matching a
Python dict in which keys are unique. -/
abbrev Dict := List (String × String)

/-- Python's `dict.get(key, default)`. -/
def dictGet (d : Dict) (k dflt : String) : String :=
  match d.find? (fun kv => kv.1 == k) with
  | some kv => kv.2
  | none => dflt

/-- Lookup without a default, to talk about presence/absence of a key. -/
def dictFind (d : Dict) (k : String) : Option String :=
  (d.find? (fun kv => kv.1 == k)).map (fun kv => kv.2)

/-- Content of a file on disk. -/
inductive FileVal where
  /-- Raw bytes (an image file). -/
  | bytes (bs : Bytes)
  /-- A parseable flat JSON object (a cache record as this system writes it). -/
  | jdict (d : Dict)
  /-- Content on which `json.load` raises (truncated/corrupt data). -/
  | malformed
deriving DecidableEq

/-- The file-system state visible to the code under verification. -/
structure FS where
  /-- `files p = some v` iff a file exists at path `p` with content `v`. -/
  files : String → Option FileVal
  /-- Simulated I/O failure: `open(p, 'w')` raises iff `writeFail p = true`. -/
  writeFail : String → Bool

/-- Overwrite (or create) the file at path `p`. -/
def FS.setFile (fs : FS) (p : String) (v : FileVal) : FS :=
  { fs with files := fun q => if q = p then some v else fs.files q }

/-- Configuration of `FileManager` (`__init__` folder arguments). -/
structure FileManager where
  upload_folder : String := "static/uploads"
  processed_folder : String := "static/processed"
  sample_folder : String := "sample_images"

/-- Python `s.startswith(pre)`. -/
def strStarts (s pre : String) : Bool :=
  pre.data.isPrefixOf s.data

/-- Python `s.endswith(suf)`. -/
def strEnds (s suf : String) : Bool :=
  suf.data.isSuffixOf s.data

/-- Structural worker for `replaceChars`: each step passes a strictly
shorter list, so `fuel = l.length` makes the fuel-exhausted case
unreachable. -/
def replaceCharsAux (old nw : List Char) : Nat → List Char → List Char
  | _, [] => []
  | 0, l => l
  | fuel + 1, c :: rest =>
    if old ≠ [] ∧ old.isPrefixOf (c :: rest) then
      nw ++ replaceCharsAux old nw fuel ((c :: rest).drop old.length)
    else c :: replaceCharsAux old nw fuel rest

/-- Python `str.replace` on character lists: replace every non-overlapping
occurrence of `old` by `nw`, scanning left to right.  (The one call site
uses a non-empty `old`; for `old = []` this returns the input unchanged.) -/
def replaceChars (old nw l : List Char) : List Char :=
  replaceCharsAux old nw l.length l

/-- Python `s.replace(old, nw)`. -/
def strReplace (s old nw : String) : String :=
  ⟨replaceChars old.data nw.data s.data⟩

/-- `os.path.join(a, b)` for a single separator: an absolute second component
replaces the first; otherwise the parts are joined with `/` unless the first
is empty or already ends in `/`. -/
def pjoin (a b : String) : String :=
  if strStarts b "/" then b
  else if a = "" ∨ strEnds a "/" then a ++ b
  else a ++ "/" ++ b

/-- `FileManager.get_sample_path`. -/
def get_sample_path (fm : FileManager) (filename : String) : String :=
  pjoin fm.sample_folder filename

/-- `FileManager.resolve_serve_path`: converts a web serve path to a file
system path.  Python's `str.replace` replaces every occurrence, which
`strReplace` mirrors. -/
def resolve_serve_path (fm : FileManager) (serve_path : String) : String :=
  if serve_path ≠ "" ∧ strStarts serve_path "/sample_images_serve/" then
    get_sample_path fm (strReplace serve_path "/sample_images_serve/" "")
  else serve_path

/-- `FileManager.file_exists` (`os.path.exists`). -/
def file_exists (fs : FS) (path : String) : Bool :=
  (fs.files path).isSome

/-- Structural worker for `splitChunks`: `fuel` bounds the number of chunks
(each loop iteration consumes at least one element when `0 < n`, so
`l.length` iterations always suffice). -/
def splitChunksAux (n : Nat) : Nat → List α → List (List α)
  | _, [] => []
  | 0, _ :: _ => []
  | fuel + 1, a :: l =>
    if n = 0 then []
    else (a :: l).take n :: splitChunksAux n fuel ((a :: l).drop n)

/-- The 4096-byte chunking done by `iter(lambda: f.read(4096), b"")` in
`FileManager.calculate_md5`: the reader yields successive chunks of at most
`n` bytes until the file is exhausted. -/
def splitChunks (n : Nat) (l : List α) : List (List α) :=
  splitChunksAux n l.length l

/-- The bytes fed to the hasher by the chunked read loop, i.e. the
concatenation of the chunks, followed by the external digest function. -/
def digest (fin : Bytes → String) (bs : Bytes) : String :=
  fin (splitChunks 4096 bs).flatten

/-- The raw bytes `open(path, "rb")` yields for a file value.  Only image
files (raw bytes) are ever hashed by the flows under verification; the
on-disk byte representation of JSON cache files is not tracked. -/
def FileVal.asBytes : FileVal → Bytes
  | .bytes bs => bs
  | .jdict _ => []
  | .malformed => []

/-- `FileManager.calculate_md5`: opens the file (raising if absent), feeds it
to the hasher in 4096-byte chunks, and returns the hex digest. -/
def calculate_md5 (fin : Bytes → String) (fs : FS) (filepath : String) :
    Except Unit String :=
  match fs.files filepath with
  | none => .error ()
  | some v => .ok (digest fin v.asBytes)

/-- `FileManager.get_cache_path`: `os.path.join(processed_folder, hash + ".json")`. -/
def get_cache_path (fm : FileManager) (file_hash : String) : String :=
  pjoin fm.processed_folder (file_hash ++ ".json")

/-- `FileManager.save_ocr_cache`: hashes the source file, then writes the JSON
serialization of `data` directly to the cache path with `open(cache_path,'w')`
followed by `json.dump` — no temporary file and no rename.  Any exception
(missing source file, failing open) propagates: the method has no handler. -/
def save_ocr_cache (fin : Bytes → String) (fm : FileManager) (fs : FS)
    (filepath : String) (data : Dict) : Except Unit FS := do
  let file_hash ← calculate_md5 fin fs filepath
  let cache_path := get_cache_path fm file_hash
  if fs.writeFail cache_path then .error ()
  else .ok (fs.setFile cache_path (.jdict data))

/-- The sequence of file-system states a concurrent reader can observe while
`save_ocr_cache` runs: the state before the call; after `open(cache_path,'w')`
has truncated the file and `json.dump` is writing (the file holds a proper
prefix of the serialized object, which is never valid JSON, hence
`malformed`); and after the write completes. -/
def save_ocr_cache_states (fin : Bytes → String) (fm : FileManager) (fs : FS)
    (filepath : String) (data : Dict) : List FS :=
  match calculate_md5 fin fs filepath with
  | .error _ => [fs]
  | .ok file_hash =>
    let cache_path := get_cache_path fm file_hash
    if fs.writeFail cache_path then [fs]
    else [fs, fs.setFile cache_path .malformed,
          fs.setFile cache_path (.jdict data)]

/-- `FileManager.get_ocr_cache`: the whole body is inside `try ... except`,
so a missing source file, a missing cache file, or unparseable cache content
all yield `None` rather than an exception. -/
def get_ocr_cache (fin : Bytes → String) (fm : FileManager) (fs : FS)
    (filepath : String) : Option Dict :=
  match calculate_md5 fin fs filepath with
  | .error _ => none
  | .ok file_hash =>
    match fs.files (get_cache_path fm file_hash) with
    | some (.jdict d) => some d
    | some (.bytes _) => none
    | some .malformed => none
    | none => none

/-- Modelled from the spec: `TextExtractionResult` is defined in
`src/domain/entities.py`, which is not part of the provided sources.  The
spec's data model (§3, §6) fixes it as an aggregate of exactly four named
text fields — a diagram transcription, a formatted-text transcription, a
free-form description, and keywords/metadata — with the same field set as
the persisted record, reconstructable from it with no transformation.  The
field names are pinned by their uses in
`text_extraction_service.py` and `text_extractors.py`. -/
structure TextExtractionResult where
  ascii_diagram : String
  markdown_text : String
  description : String
  seo_keywords : String
deriving DecidableEq

/-- Modelled from the spec: `TextExtractionResult.to_dict` (entities.py, not
in the provided sources) serializes exactly the four named fields of the
result into a flat JSON object, per spec §6 ("the persisted record is a flat
structured document with exactly four named text fields, using the same
field set as ExtractionResult"). -/
def TextExtractionResult.to_dict (r : TextExtractionResult) : Dict :=
  [("ascii_diagram", r.ascii_diagram),
   ("markdown_text", r.markdown_text),
   ("description", r.description),
   ("seo_keywords", r.seo_keywords)]

/-- The cache-hit reconstruction inlined in `TextExtractionService.extract`:
`TextExtractionResult(ascii_diagram=cached_data.get('ascii_diagram', ''), ...)`. -/
def resultFromCache (d : Dict) : TextExtractionResult :=
  { ascii_diagram := dictGet d "ascii_diagram" ""
    markdown_text := dictGet d "markdown_text" ""
    description := dictGet d "description" ""
    seo_keywords := dictGet d "seo_keywords" "" }

/-- Instrumentation of one `TextExtractionService.extract` call: how many
times it invoked `get_ocr_cache`, `save_ocr_cache`, and the injected
extractor (the only component that dispatches inference-backend calls). -/
structure ExtractStats where
  cacheReads : Nat
  cacheWrites : Nat
  extractorCalls : Nat
deriving DecidableEq

/-- The scripted miss path of `TextExtractionService.extract` (lines 63-70):
delegate to the extractor; if it returned a result, persist it (any
exception from `save_ocr_cache` propagates: there is no handler); return the
result.  The stats include the one cache read the service already performed
before reaching this path. -/
def extract_fresh (fin : Bytes → String) (fm : FileManager)
    (ext : FS → String → Option TextExtractionResult) (fs : FS)
    (actual_path : String) :
    Except Unit (Option TextExtractionResult × FS × ExtractStats) :=
  match ext fs actual_path with
  | some result => do
    let fs' ← save_ocr_cache fin fm fs actual_path result.to_dict
    .ok (some result, fs', ⟨1, 1, 1⟩)
  | none => .ok (none, fs, ⟨1, 0, 1⟩)

/-- `TextExtractionService.extract`: resolve the serve path; return `None`
if the file does not exist (before any cache access); consult the cache and,
if the deserialized record is truthy (a non-empty dict), reconstruct and
return it with no extractor call; otherwise run a fresh extraction.
`fin` is the digest function, `ext` the injected `ITextExtractor.extract`. -/
def TextExtractionService.extract (fin : Bytes → String) (fm : FileManager)
    (ext : FS → String → Option TextExtractionResult) (fs : FS)
    (image_path : String) :
    Except Unit (Option TextExtractionResult × FS × ExtractStats) :=
  let actual_path := resolve_serve_path fm image_path
  if file_exists fs actual_path = false then .ok (none, fs, ⟨0, 0, 0⟩)
  else
    match get_ocr_cache fin fm fs actual_path with
    | some cached_data =>
      if cached_data.isEmpty then extract_fresh fin fm ext fs actual_path
      else .ok (some (resultFromCache cached_data), fs, ⟨1, 0, 0⟩)
    | none => extract_fresh fin fm ext fs actual_path

/-- The four fixed, statically-known sub-tasks of `GeminiTextExtractor`. -/
inductive SubTask where
  | ascii
  | markdown
  | descr
  | seo
deriving DecidableEq

/-- The ASCII whitespace stripped by Python's `str.strip()` (the full Python
set also has a few unicode members, irrelevant here). -/
def isWs (c : Char) : Bool :=
  c = ' ' ∨ c = '\t' ∨ c = '\n' ∨ c = '\r'

/-- Python `s.strip()`: drop leading and trailing whitespace. -/
def pyStrip (s : String) : String :=
  ⟨((s.data.dropWhile isWs).reverse.dropWhile isWs).reverse⟩

/-- One sub-extractor (`_extract_ascii` / `_extract_markdown` /
`_extract_description` / `_extract_seo`): call the backend with this
sub-task's fixed prompt and the image bytes; on success return the stripped
response text, on any exception catch it and return the empty string. -/
def runSub (backend : SubTask → Bytes → Except Unit String) (bs : Bytes)
    (t : SubTask) : String :=
  match backend t bs with
  | .ok s => pyStrip s
  | .error _ => ""

/-- `GeminiTextExtractor.extract`: load the image (the outer `try` turns a
load failure into `None`), submit the four sub-tasks, join all futures
(none of the workers can raise: each sub-extractor has its own handler), and
assemble the result keyed by sub-task label.  The backend (the Gemini
client) is abstract; the futures dict is sequentialized, which is faithful
because assembly is keyed by label, not completion order. -/
def GeminiTextExtractor.extract (backend : SubTask → Bytes → Except Unit String)
    (img : Except Unit Bytes) : Option TextExtractionResult :=
  match img with
  | .error _ => none
  | .ok image_bytes =>
    some { ascii_diagram := runSub backend image_bytes .ascii
           markdown_text := runSub backend image_bytes .markdown
           description := runSub backend image_bytes .descr
           seo_keywords := runSub backend image_bytes .seo }

/-- The result field produced by each sub-task. -/
def TextExtractionResult.field (r : TextExtractionResult) : SubTask → String
  | .ascii => r.ascii_diagram
  | .markdown => r.markdown_text
  | .descr => r.description
  | .seo => r.seo_keywords

/-! ### Concrete fixtures used by the witness theorems -/

/-- A concrete digest function (any pure function will do for the store). -/
def finX : Bytes → String := fun _ => "h"

/-- A concrete folder configuration. -/
def fmX : FileManager := { upload_folder := "u", processed_folder := "proc", sample_folder := "s" }

/-- A concrete result. -/
def rX : TextExtractionResult := ⟨"a", "b", "c", "d"⟩

/-- A file system holding one image and nothing else. -/
def fsImg : FS :=
  { files := fun p => if p = "img" then some (.bytes [1, 2]) else none
    writeFail := fun _ => false }

/-- An empty file system. -/
def fsEmpty : FS := { files := fun _ => none, writeFail := fun _ => false }

/-- Image present, its cache record present (`finX` digest is `"h"`). -/
def fsHit : FS :=
  { files := fun p =>
      if p = "img" then some (.bytes [1, 2])
      else if p = "proc/h.json" then some (.jdict [("markdown_text", "m")])
      else none
    writeFail := fun _ => false }

/-- Image present, its cache record corrupt. -/
def fsCorrupt : FS :=
  { files := fun p =>
      if p = "img" then some (.bytes [1, 2])
      else if p = "proc/h.json" then some .malformed
      else none
    writeFail := fun _ => false }

/-- Image present, its cache record the empty (falsy) JSON object. -/
def fsFalsy : FS :=
  { files := fun p =>
      if p = "img" then some (.bytes [1, 2])
      else if p = "proc/h.json" then some (.jdict [])
      else none
    writeFail := fun _ => false }

/-- Image present, cache absent, and opening the cache path for write fails. -/
def fsBadDisk : FS :=
  { files := fun p => if p = "img" then some (.bytes [1, 2]) else none
    writeFail := fun p => p = "proc/h.json" }

/-- Two paths with byte-identical content. -/
def fsTwin : FS :=
  { files := fun p => if p = "a" ∨ p = "b" then some (.bytes [9, 9]) else none
    writeFail := fun _ => false }

/-- A backend for the fan-out witness: the ascii sub-task raises, the other
three return text. -/
def backendW : SubTask → Bytes → Except Unit String :=
  fun t _ =>
    match t with
    | .ascii => .error ()
    | .markdown => .ok " X "
    | .descr => .ok "Y"
    | .seo => .ok "Z"

/-- A previously persisted record and its replacement, for the write-path
atomicity analysis. -/
def oldD : Dict := [("ascii_diagram", "o")]

/-- Image present and an old cache record already stored for it. -/
def fsPre : FS :=
  { files := fun p =>
      if p = "img" then some (.bytes [1, 2])
      else if p = "proc/h.json" then some (.jdict oldD)
      else none
    writeFail := fun _ => false }

/-! ### Helper lemmas -/

theorem splitChunksAux_flatten (n : Nat) (hn : n ≠ 0) :
    ∀ (fuel : Nat) (l : List α), l.length ≤ fuel →
      (splitChunksAux n fuel l).flatten = l := by
  intro fuel
  induction fuel with
  | zero =>
    intro l hl
    cases l with
    | nil => rfl
    | cons a t => simp at hl
  | succ fuel ih =>
    intro l hl
    cases l with
    | nil => rfl
    | cons a t =>
      simp only [splitChunksAux, if_neg hn, List.flatten_cons]
      rw [ih ((a :: t).drop n) (by simp at hl ⊢; omega)]
      exact List.take_append_drop n (a :: t)

/-- The chunked read loop of `calculate_md5` feeds the hasher exactly the
file's full byte content. -/
theorem digest_eq (fin : Bytes → String) (bs : Bytes) : digest fin bs = fin bs := by
  unfold digest splitChunks
  rw [splitChunksAux_flatten 4096 (by omega) bs.length bs le_rfl]

/-- `get_ocr_cache` on a readable source file is determined by the content
of the cache path for the source's digest. -/
theorem get_ocr_cache_eq (fin : Bytes → String) (fm : FileManager) (fs : FS)
    (p : String) (bs : Bytes) (himg : fs.files p = some (.bytes bs)) :
    get_ocr_cache fin fm fs p =
      match fs.files (get_cache_path fm (fin bs)) with
      | some (.jdict d) => some d
      | _ => none := by
  simp only [get_ocr_cache, calculate_md5, himg, FileVal.asBytes, digest_eq]
  rcases fs.files (get_cache_path fm (fin bs)) with _ | v
  · rfl
  · cases v <;> rfl

theorem dictGet_of_find_none (d : Dict) (k dflt : String)
    (h : dictFind d k = none) : dictGet d k dflt = dflt := by
  unfold dictFind at h
  unfold dictGet
  rcases hf : d.find? (fun kv => kv.1 == k) with _ | kv
  · rw [hf]
  · rw [hf] at h; simp at h

theorem dictGet_of_find_some (d : Dict) (k dflt v : String)
    (h : dictFind d k = some v) : dictGet d k dflt = v := by
  unfold dictFind at h
  unfold dictGet
  rcases hf : d.find? (fun kv => kv.1 == k) with _ | kv
  · rw [hf] at h; simp at h
  · rw [hf] at h ⊢; simp at h; exact h

/-- Reconstructing a result from its own serialization is the identity. -/
theorem resultFromCache_to_dict (r : TextExtractionResult) :
    resultFromCache r.to_dict = r := rfl

theorem except_bind_ok (a : α) (f : α → Except ε β) :
    (Except.ok a >>= f : Except ε β) = f a := rfl

theorem except_bind_error (e : ε) (f : α → Except ε β) :
    (Except.error e >>= f : Except ε β) = .error e := rfl

/-- The serialized record always carries its four fields, hence is truthy. -/
theorem to_dict_isEmpty (r : TextExtractionResult) :
    r.to_dict.isEmpty = false := rfl

/-- Whatever `extract_fresh` returns, it invoked the extractor exactly once. -/
theorem extract_fresh_calls (fin : Bytes → String) (fm : FileManager)
    (ext : FS → String → Option TextExtractionResult) (fs : FS) (p : String)
    (res : Option TextExtractionResult) (fs' : FS) (st : ExtractStats)
    (h : extract_fresh fin fm ext fs p = .ok (res, fs', st)) :
    st.extractorCalls = 1 := by
  unfold extract_fresh at h
  rcases hext : ext fs p with _ | r <;> rw [hext] at h
  · cases h; rfl
  · simp only [bind, Except.bind] at h
    rcases hsv : save_ocr_cache fin fm fs p r.to_dict with e | fs'' <;>
      rw [hsv] at h
    · cases h
    · cases h; rfl

/-! ### Claim theorems -/

/-- C5: if the input file does not exist (after serve-path resolution),
`TextExtractionService.extract` returns `None` with zero cache reads, zero
cache writes and zero extractor invocations — the not-found check precedes
every cache access and all inference. -/
theorem extract_not_found (fin : Bytes → String) (fm : FileManager)
    (ext : FS → String → Option TextExtractionResult) (fs : FS) (p : String)
    (h : fs.files (resolve_serve_path fm p) = none) :
    TextExtractionService.extract fin fm ext fs p = .ok (none, fs, ⟨0, 0, 0⟩) := by
  unfold TextExtractionService.extract
  simp [file_exists, h]

theorem extract_not_found_witness :
    fsEmpty.files (resolve_serve_path fmX "img") = none ∧
    TextExtractionService.extract finX fmX (fun _ _ => some rX) fsEmpty "img"
      = .ok (none, fsEmpty, ⟨0, 0, 0⟩) :=
  ⟨rfl, extract_not_found finX fmX (fun _ _ => some rX) fsEmpty "img" rfl⟩

/-- C7: the fingerprint is a pure function of the file's byte content —
two paths with identical bytes yield identical digests (path independence;
determinism across calls and restarts is inherent, the digest being a pure
function of the accumulated bytes) — and the 4096-byte chunked read loop
accumulates exactly the full content, so the digest input is the whole byte
buffer. -/
theorem md5_content_keyed (fin : Bytes → String) (fs : FS) (p₁ p₂ : String)
    (h : fs.files p₁ = fs.files p₂) :
    calculate_md5 fin fs p₁ = calculate_md5 fin fs p₂ ∧
    (∀ bs : Bytes, fs.files p₁ = some (.bytes bs) →
      calculate_md5 fin fs p₁ = .ok (fin bs)) := by
  constructor
  · unfold calculate_md5
    rw [h]
  · intro bs hbs
    unfold calculate_md5
    rw [hbs]
    simp [FileVal.asBytes, digest_eq]

theorem md5_content_keyed_witness :
    fsTwin.files "a" = fsTwin.files "b" ∧
    (calculate_md5 finX fsTwin "a" = calculate_md5 finX fsTwin "b" ∧
     ∀ bs : Bytes, fsTwin.files "a" = some (.bytes bs) →
       calculate_md5 finX fsTwin "a" = .ok (finX bs)) :=
  ⟨rfl, md5_content_keyed finX fsTwin "a" "b" rfl⟩

/-- C6: `get_ocr_cache` returns `None` — never an error — when the source
file is unreadable, when no cache record exists, and when the persisted
record is corrupt or unparseable; and whenever the cache lookup yields
`None` while the file exists, the service runs a fresh extraction. -/
theorem get_absent_on_missing_or_corrupt (fin : Bytes → String)
    (fm : FileManager) (fs : FS) (p : String) :
    (fs.files p = none → get_ocr_cache fin fm fs p = none) ∧
    (∀ bs : Bytes, fs.files p = some (.bytes bs) →
      (fs.files (get_cache_path fm (fin bs)) = none →
        get_ocr_cache fin fm fs p = none) ∧
      (fs.files (get_cache_path fm (fin bs)) = some .malformed →
        get_ocr_cache fin fm fs p = none) ∧
      (∀ bs₂ : Bytes, fs.files (get_cache_path fm (fin bs)) = some (.bytes bs₂) →
        get_ocr_cache fin fm fs p = none)) ∧
    (∀ (ext : FS → String → Option TextExtractionResult) (q : String),
      resolve_serve_path fm q = p → file_exists fs p = true →
      get_ocr_cache fin fm fs p = none →
      TextExtractionService.extract fin fm ext fs q = extract_fresh fin fm ext fs p) := by
  refine ⟨?_, ?_, ?_⟩
  · intro h
    simp [get_ocr_cache, calculate_md5, h]
  · intro bs hbs
    refine ⟨?_, ?_, ?_⟩
    · intro h
      rw [get_ocr_cache_eq fin fm fs p bs hbs, h]
    · intro h
      rw [get_ocr_cache_eq fin fm fs p bs hbs, h]
    · intro bs₂ h
      rw [get_ocr_cache_eq fin fm fs p bs hbs, h]
  · intro ext q hq hex hget
    unfold TextExtractionService.extract
    simp only [hq, hex, hget]
    simp

theorem get_absent_on_missing_or_corrupt_witness :
    (fsCorrupt.files "img" = some (.bytes [1, 2])) ∧
    (fsCorrupt.files (get_cache_path fmX (finX [1, 2])) = some .malformed) ∧
    get_ocr_cache finX fmX fsCorrupt "img" = none ∧
    (resolve_serve_path fmX "img" = "img" ∧ file_exists fsCorrupt "img" = true) ∧
    TextExtractionService.extract finX fmX (fun _ _ => none) fsCorrupt "img"
      = extract_fresh finX fmX (fun _ _ => none) fsCorrupt "img" := by
  have h := get_absent_on_missing_or_corrupt finX fmX fsCorrupt "img"
  refine ⟨rfl, rfl, ?_, ⟨rfl, rfl⟩, ?_⟩
  · exact (h.2.1 [1, 2] rfl).2.1 rfl
  · exact h.2.2 (fun _ _ => none) "img" rfl rfl ((h.2.1 [1, 2] rfl).2.1 rfl)

/-- C9: a persisted record that deserializes to the empty (falsy) JSON
object is treated as a cache miss — `extract` runs a fresh extraction (one
extractor invocation) even though `get_ocr_cache` returned an existing
record; only a truthy record short-circuits. -/
theorem falsy_record_is_miss (fin : Bytes → String) (fm : FileManager)
    (ext : FS → String → Option TextExtractionResult) (fs : FS) (p : String)
    (bs : Bytes)
    (himg : fs.files (resolve_serve_path fm p) = some (.bytes bs))
    (hrec : fs.files (get_cache_path fm (fin bs)) = some (.jdict [])) :
    get_ocr_cache fin fm fs (resolve_serve_path fm p) = some [] ∧
    TextExtractionService.extract fin fm ext fs p
      = extract_fresh fin fm ext fs (resolve_serve_path fm p) ∧
    (∀ (res : Option TextExtractionResult) (fs' : FS) (st : ExtractStats),
      extract_fresh fin fm ext fs (resolve_serve_path fm p) = .ok (res, fs', st) →
      st.extractorCalls = 1) := by
  have hget : get_ocr_cache fin fm fs (resolve_serve_path fm p) = some [] := by
    rw [get_ocr_cache_eq fin fm fs _ bs himg, hrec]
  refine ⟨hget, ?_, ?_⟩
  · unfold TextExtractionService.extract
    simp only [file_exists, himg, hget]
    simp
  · intro res fs' st h
    exact extract_fresh_calls fin fm ext fs _ res fs' st h

theorem falsy_record_is_miss_witness :
    (fsFalsy.files (resolve_serve_path fmX "img") = some (.bytes [1, 2]) ∧
     fsFalsy.files (get_cache_path fmX (finX [1, 2])) = some (.jdict [])) ∧
    (get_ocr_cache finX fmX fsFalsy (resolve_serve_path fmX "img") = some [] ∧
     TextExtractionService.extract finX fmX (fun _ _ => some rX) fsFalsy "img"
       = extract_fresh finX fmX (fun _ _ => some rX) fsFalsy
           (resolve_serve_path fmX "img") ∧
     (∀ (res : Option TextExtractionResult) (fs' : FS) (st : ExtractStats),
       extract_fresh finX fmX (fun _ _ => some rX) fsFalsy
           (resolve_serve_path fmX "img") = .ok (res, fs', st) →
       st.extractorCalls = 1)) :=
  ⟨⟨rfl, rfl⟩,
   falsy_record_is_miss finX fmX (fun _ _ => some rX) fsFalsy "img" [1, 2] rfl rfl⟩

/-- C10: on a truthy cache hit, reconstruction never fails — `extract`
returns a result built with `dict.get(field, '')`, so each of the four
fields absent from the record becomes the empty string and each present
field is copied through unchanged; no extractor call and no write happen. -/
theorem hit_fills_missing_fields (fin : Bytes → String) (fm : FileManager)
    (ext : FS → String → Option TextExtractionResult) (fs : FS) (p : String)
    (bs : Bytes) (d : Dict)
    (himg : fs.files (resolve_serve_path fm p) = some (.bytes bs))
    (hrec : fs.files (get_cache_path fm (fin bs)) = some (.jdict d))
    (ht : d ≠ []) :
    TextExtractionService.extract fin fm ext fs p
      = .ok (some (resultFromCache d), fs, ⟨1, 0, 0⟩) ∧
    ((dictFind d "ascii_diagram" = none → (resultFromCache d).ascii_diagram = "") ∧
     (∀ v, dictFind d "ascii_diagram" = some v → (resultFromCache d).ascii_diagram = v)) ∧
    ((dictFind d "markdown_text" = none → (resultFromCache d).markdown_text = "") ∧
     (∀ v, dictFind d "markdown_text" = some v → (resultFromCache d).markdown_text = v)) ∧
    ((dictFind d "description" = none → (resultFromCache d).description = "") ∧
     (∀ v, dictFind d "description" = some v → (resultFromCache d).description = v)) ∧
    ((dictFind d "seo_keywords" = none → (resultFromCache d).seo_keywords = "") ∧
     (∀ v, dictFind d "seo_keywords" = some v → (resultFromCache d).seo_keywords = v)) := by
  have hget : get_ocr_cache fin fm fs (resolve_serve_path fm p) = some d := by
    rw [get_ocr_cache_eq fin fm fs _ bs himg, hrec]
  refine ⟨?_, ?_, ?_, ?_, ?_⟩
  · unfold TextExtractionService.extract
    simp only [file_exists, himg, hget]
    cases d with
    | nil => exact absurd rfl ht
    | cons kv tl => simp
  all_goals
    exact ⟨fun h => dictGet_of_find_none d _ "" h,
           fun v h => dictGet_of_find_some d _ "" v h⟩

theorem hit_fills_missing_fields_witness :
    (fsHit.files (resolve_serve_path fmX "img") = some (.bytes [1, 2]) ∧
     fsHit.files (get_cache_path fmX (finX [1, 2]))
       = some (.jdict [("markdown_text", "m")]) ∧
     [("markdown_text", "m")] ≠ ([] : Dict)) ∧
    TextExtractionService.extract finX fmX (fun _ _ => some rX) fsHit "img"
      = .ok (some (resultFromCache [("markdown_text", "m")]), fsHit, ⟨1, 0, 0⟩) ∧
    resultFromCache [("markdown_text", "m")] = ⟨"", "m", "", ""⟩ :=
  ⟨⟨rfl, rfl, by decide⟩,
   (hit_fills_missing_fields finX fmX (fun _ _ => some rX) fsHit "img" [1, 2]
      [("markdown_text", "m")] rfl rfl (by decide)).1,
   rfl⟩

/-- C1: cache idempotence.  Under a first call that misses, extracts `r`
and persists it (write succeeding, the image distinct from its cache file),
the first call returns `r` having written the record, and a second call on
the unchanged bytes returns an equal result served from the cache with zero
extractor (hence zero inference-backend) invocations — for an arbitrary
second extractor, which is therefore never consulted.  Moreover, whenever
`get_ocr_cache` yields a truthy record, `extract` returns it immediately
with zero extractor calls — the hit short-circuits before any inference. -/
theorem extract_cache_idempotent (fin : Bytes → String) (fm : FileManager)
    (ext ext₂ : FS → String → Option TextExtractionResult) (fs : FS)
    (p : String) (bs : Bytes) (r : TextExtractionResult)
    (himg : fs.files (resolve_serve_path fm p) = some (.bytes bs))
    (hmiss : fs.files (get_cache_path fm (fin bs)) = none)
    (hext : ext fs (resolve_serve_path fm p) = some r)
    (hW : fs.writeFail (get_cache_path fm (fin bs)) = false)
    (hne : resolve_serve_path fm p ≠ get_cache_path fm (fin bs)) :
    TextExtractionService.extract fin fm ext fs p
      = .ok (some r, fs.setFile (get_cache_path fm (fin bs)) (.jdict r.to_dict),
             ⟨1, 1, 1⟩) ∧
    TextExtractionService.extract fin fm ext₂
        (fs.setFile (get_cache_path fm (fin bs)) (.jdict r.to_dict)) p
      = .ok (some r, fs.setFile (get_cache_path fm (fin bs)) (.jdict r.to_dict),
             ⟨1, 0, 0⟩) ∧
    (∀ (fs₀ : FS) (d : Dict), d ≠ [] →
      file_exists fs₀ (resolve_serve_path fm p) = true →
      get_ocr_cache fin fm fs₀ (resolve_serve_path fm p) = some d →
      TextExtractionService.extract fin fm ext₂ fs₀ p
        = .ok (some (resultFromCache d), fs₀, ⟨1, 0, 0⟩)) := by
  have hget : get_ocr_cache fin fm fs (resolve_serve_path fm p) = none := by
    rw [get_ocr_cache_eq fin fm fs _ bs himg, hmiss]
  have hsave : save_ocr_cache fin fm fs (resolve_serve_path fm p) r.to_dict
      = .ok (fs.setFile (get_cache_path fm (fin bs)) (.jdict r.to_dict)) := by
    unfold save_ocr_cache calculate_md5
    rw [himg]
    simp only [FileVal.asBytes, digest_eq]
    rw [except_bind_ok]
    simp [hW]
  refine ⟨?_, ?_, ?_⟩
  · unfold TextExtractionService.extract
    simp only [file_exists, himg, hget]
    unfold extract_fresh
    rw [hext]
    simp [hsave, except_bind_ok]
  · have himg' : (fs.setFile (get_cache_path fm (fin bs)) (.jdict r.to_dict)).files
        (resolve_serve_path fm p) = some (.bytes bs) := by
      unfold FS.setFile
      simp only [if_neg hne]
      exact himg
    have hrec' : (fs.setFile (get_cache_path fm (fin bs)) (.jdict r.to_dict)).files
        (get_cache_path fm (fin bs)) = some (.jdict r.to_dict) := by
      unfold FS.setFile
      simp
    have hget' : get_ocr_cache fin fm
        (fs.setFile (get_cache_path fm (fin bs)) (.jdict r.to_dict))
        (resolve_serve_path fm p) = some r.to_dict := by
      rw [get_ocr_cache_eq fin fm _ _ bs himg', hrec']
    unfold TextExtractionService.extract
    simp only [file_exists, himg', hget']
    simp only [to_dict_isEmpty, resultFromCache_to_dict]
    simp
  · intro fs₀ d hd hex hget₀
    unfold TextExtractionService.extract
    simp only [hex, hget₀]
    cases d with
    | nil => exact absurd rfl hd
    | cons kv tl => simp

theorem extract_cache_idempotent_witness :
    (fsImg.files (resolve_serve_path fmX "img") = some (.bytes [1, 2]) ∧
     fsImg.files (get_cache_path fmX (finX [1, 2])) = none ∧
     (fun (_ : FS) (_ : String) => some rX) fsImg (resolve_serve_path fmX "img")
       = some rX ∧
     fsImg.writeFail (get_cache_path fmX (finX [1, 2])) = false ∧
     resolve_serve_path fmX "img" ≠ get_cache_path fmX (finX [1, 2])) ∧
    TextExtractionService.extract finX fmX (fun _ _ => some rX) fsImg "img"
      = .ok (some rX,
             fsImg.setFile (get_cache_path fmX (finX [1, 2])) (.jdict rX.to_dict),
             ⟨1, 1, 1⟩) ∧
    TextExtractionService.extract finX fmX (fun _ _ => none)
        (fsImg.setFile (get_cache_path fmX (finX [1, 2])) (.jdict rX.to_dict)) "img"
      = .ok (some rX,
             fsImg.setFile (get_cache_path fmX (finX [1, 2])) (.jdict rX.to_dict),
             ⟨1, 0, 0⟩) := by
  have h := extract_cache_idempotent finX fmX (fun _ _ => some rX)
    (fun _ _ => none) fsImg "img" [1, 2] rX rfl rfl rfl rfl (by decide)
  exact ⟨⟨rfl, rfl, rfl, rfl, by decide⟩, h.1, h.2.1⟩

/-- C8: round-trip — `save_ocr_cache` for a readable source file (whose
cache path is writable and distinct from the source itself) persists the
record, and a subsequent `get_ocr_cache` for the same source returns a
record equal to the original, in particular equal in each of the four named
fields. -/
theorem put_get_roundtrip (fin : Bytes → String) (fm : FileManager) (fs : FS)
    (p : String) (data : Dict) (bs : Bytes)
    (himg : fs.files p = some (.bytes bs))
    (hne : p ≠ get_cache_path fm (fin bs))
    (hW : fs.writeFail (get_cache_path fm (fin bs)) = false) :
    save_ocr_cache fin fm fs p data
      = .ok (fs.setFile (get_cache_path fm (fin bs)) (.jdict data)) ∧
    get_ocr_cache fin fm (fs.setFile (get_cache_path fm (fin bs)) (.jdict data)) p
      = some data ∧
    (∀ d' : Dict,
      get_ocr_cache fin fm (fs.setFile (get_cache_path fm (fin bs)) (.jdict data)) p
        = some d' →
      dictGet d' "ascii_diagram" "" = dictGet data "ascii_diagram" "" ∧
      dictGet d' "markdown_text" "" = dictGet data "markdown_text" "" ∧
      dictGet d' "description" "" = dictGet data "description" "" ∧
      dictGet d' "seo_keywords" "" = dictGet data "seo_keywords" "") := by
  have himg' : (fs.setFile (get_cache_path fm (fin bs)) (.jdict data)).files p
      = some (.bytes bs) := by
    unfold FS.setFile
    simp only [if_neg hne]
    exact himg
  have hrec' : (fs.setFile (get_cache_path fm (fin bs)) (.jdict data)).files
      (get_cache_path fm (fin bs)) = some (.jdict data) := by
    unfold FS.setFile
    simp
  have hget : get_ocr_cache fin fm
      (fs.setFile (get_cache_path fm (fin bs)) (.jdict data)) p = some data := by
    rw [get_ocr_cache_eq fin fm _ _ bs himg', hrec']
  refine ⟨?_, hget, ?_⟩
  · unfold save_ocr_cache calculate_md5
    rw [himg]
    simp [FileVal.asBytes, digest_eq, except_bind_ok, hW]
  · intro d' hd'
    rw [hget] at hd'
    cases hd'
    exact ⟨rfl, rfl, rfl, rfl⟩

theorem put_get_roundtrip_witness :
    (fsImg.files "img" = some (.bytes [1, 2]) ∧
     "img" ≠ get_cache_path fmX (finX [1, 2]) ∧
     fsImg.writeFail (get_cache_path fmX (finX [1, 2])) = false) ∧
    save_ocr_cache finX fmX fsImg "img" rX.to_dict
      = .ok (fsImg.setFile (get_cache_path fmX (finX [1, 2])) (.jdict rX.to_dict)) ∧
    get_ocr_cache finX fmX
        (fsImg.setFile (get_cache_path fmX (finX [1, 2])) (.jdict rX.to_dict)) "img"
      = some rX.to_dict := by
  have h := put_get_roundtrip finX fmX fsImg "img" rX.to_dict [1, 2]
    rfl (by decide) rfl
  exact ⟨⟨rfl, by decide, rfl⟩, h.1, h.2.1⟩

/-- C2, counterexample: `save_ocr_cache` writes directly to the final cache
path (`open(cache_path, 'w')` truncates in place; there is no temporary
file and no rename).  Concretely: with a record already stored, the state
after the truncating open and during `json.dump` yields `None` to a
concurrent `get_ocr_cache` — neither the old record nor the new one — so
the put is not atomic with respect to readers, refuting "write-then-rename
or an equivalent atomic mechanism". -/
theorem save_not_atomic :
    get_ocr_cache finX fmX fsPre "img" = some oldD ∧
    save_ocr_cache_states finX fmX fsPre "img" rX.to_dict
      = [fsPre, fsPre.setFile "proc/h.json" .malformed,
         fsPre.setFile "proc/h.json" (.jdict rX.to_dict)] ∧
    get_ocr_cache finX fmX (fsPre.setFile "proc/h.json" .malformed) "img" = none ∧
    (none : Option Dict) ≠ some oldD ∧ (none : Option Dict) ≠ some rX.to_dict :=
  ⟨rfl, rfl, rfl, by simp, by simp⟩

/-- C2, amended: during a `save_ocr_cache` whose source file is readable and
whose (distinct) cache path is writable, a concurrent reader observes one of
exactly three views — the pre-call view, absent, or the new record; it never
parses a half-written record (every proper prefix of the serialized object
is invalid JSON, which `get_ocr_cache` degrades to a miss).  After the final
state the new record is stored, and that state is what `save_ocr_cache`
returns. -/
theorem save_states_reader_view (fin : Bytes → String) (fm : FileManager)
    (fs : FS) (p : String) (data : Dict) (bs : Bytes)
    (himg : fs.files p = some (.bytes bs))
    (hne : p ≠ get_cache_path fm (fin bs))
    (hW : fs.writeFail (get_cache_path fm (fin bs)) = false) :
    save_ocr_cache_states fin fm fs p data
      = [fs, fs.setFile (get_cache_path fm (fin bs)) .malformed,
         fs.setFile (get_cache_path fm (fin bs)) (.jdict data)] ∧
    (∀ σ ∈ save_ocr_cache_states fin fm fs p data,
      get_ocr_cache fin fm σ p = get_ocr_cache fin fm fs p ∨
      get_ocr_cache fin fm σ p = none ∨
      get_ocr_cache fin fm σ p = some data) ∧
    get_ocr_cache fin fm (fs.setFile (get_cache_path fm (fin bs)) (.jdict data)) p
      = some data ∧
    save_ocr_cache fin fm fs p data
      = .ok (fs.setFile (get_cache_path fm (fin bs)) (.jdict data)) := by
  have hmid : (fs.setFile (get_cache_path fm (fin bs)) .malformed).files p
      = some (.bytes bs) := by
    unfold FS.setFile
    simp only [if_neg hne]
    exact himg
  have hfin : (fs.setFile (get_cache_path fm (fin bs)) (.jdict data)).files p
      = some (.bytes bs) := by
    unfold FS.setFile
    simp only [if_neg hne]
    exact himg
  have hstates : save_ocr_cache_states fin fm fs p data
      = [fs, fs.setFile (get_cache_path fm (fin bs)) .malformed,
         fs.setFile (get_cache_path fm (fin bs)) (.jdict data)] := by
    unfold save_ocr_cache_states calculate_md5
    rw [himg]
    simp [FileVal.asBytes, digest_eq, hW]
  have hgetfin : get_ocr_cache fin fm
      (fs.setFile (get_cache_path fm (fin bs)) (.jdict data)) p = some data := by
    rw [get_ocr_cache_eq fin fm _ _ bs hfin]
    unfold FS.setFile
    simp
  refine ⟨hstates, ?_, hgetfin, ?_⟩
  · intro σ hσ
    rw [hstates] at hσ
    simp only [List.mem_cons, List.not_mem_nil, or_false] at hσ
    rcases hσ with hσ | hσ | hσ
    · subst hσ
      exact Or.inl rfl
    · subst hσ
      refine Or.inr (Or.inl ?_)
      rw [get_ocr_cache_eq fin fm _ _ bs hmid]
      unfold FS.setFile
      simp
    · subst hσ
      exact Or.inr (Or.inr hgetfin)
  · unfold save_ocr_cache calculate_md5
    rw [himg]
    simp only [FileVal.asBytes, digest_eq]
    rw [except_bind_ok]
    simp [hW]

theorem save_states_reader_view_witness :
    (fsPre.files "img" = some (.bytes [1, 2]) ∧
     "img" ≠ get_cache_path fmX (finX [1, 2]) ∧
     fsPre.writeFail (get_cache_path fmX (finX [1, 2])) = false) ∧
    (∀ σ ∈ save_ocr_cache_states finX fmX fsPre "img" rX.to_dict,
      get_ocr_cache finX fmX σ "img" = get_ocr_cache finX fmX fsPre "img" ∨
      get_ocr_cache finX fmX σ "img" = none ∨
      get_ocr_cache finX fmX σ "img" = some rX.to_dict) ∧
    get_ocr_cache finX fmX
        (fsPre.setFile (get_cache_path fmX (finX [1, 2])) (.jdict rX.to_dict)) "img"
      = some rX.to_dict := by
  have h := save_states_reader_view finX fmX fsPre "img" rX.to_dict [1, 2]
    rfl (by decide) rfl
  exact ⟨⟨rfl, by decide, rfl⟩, h.2.1, h.2.2.1⟩

/-- C3, counterexample: with the extractor succeeding and the cache path
failing on open-for-write, `TextExtractionService.extract` raises instead of
returning the freshly computed result — neither the service nor
`save_ocr_cache` has any handler around the persist step, so a store write
failure is fatal to the request, contradicting the claim. -/
theorem write_failure_fatal :
    (fun (_ : FS) (_ : String) => some rX) fsBadDisk "img" = some rX ∧
    TextExtractionService.extract finX fmX (fun _ _ => some rX) fsBadDisk "img"
      = .error () :=
  ⟨rfl, rfl⟩

/-- C3, amended: if persisting the record fails after a successful fresh
extraction, the exception propagates out of `extract` — the freshly computed
result is lost to the caller (the code has no handler; the spec's
return-anyway behavior is not implemented). -/
theorem write_failure_propagates (fin : Bytes → String) (fm : FileManager)
    (ext : FS → String → Option TextExtractionResult) (fs : FS) (p : String)
    (bs : Bytes) (r : TextExtractionResult)
    (himg : fs.files (resolve_serve_path fm p) = some (.bytes bs))
    (hmiss : get_ocr_cache fin fm fs (resolve_serve_path fm p) = none)
    (hext : ext fs (resolve_serve_path fm p) = some r)
    (hW : fs.writeFail (get_cache_path fm (fin bs)) = true) :
    TextExtractionService.extract fin fm ext fs p = .error () := by
  unfold TextExtractionService.extract
  simp only [file_exists, himg, hmiss]
  unfold extract_fresh
  rw [hext]
  unfold save_ocr_cache calculate_md5
  rw [himg]
  simp only [FileVal.asBytes, digest_eq]
  rw [except_bind_ok]
  simp [hW, except_bind_error]

theorem write_failure_propagates_witness :
    (fsBadDisk.files (resolve_serve_path fmX "img") = some (.bytes [1, 2]) ∧
     get_ocr_cache finX fmX fsBadDisk (resolve_serve_path fmX "img") = none ∧
     fsBadDisk.writeFail (get_cache_path fmX (finX [1, 2])) = true) ∧
    TextExtractionService.extract finX fmX (fun _ _ => some rX) fsBadDisk "img"
      = .error () :=
  ⟨⟨rfl, rfl, rfl⟩,
   write_failure_propagates finX fmX (fun _ _ => some rX) fsBadDisk "img"
     [1, 2] rX rfl rfl rfl rfl⟩

/-- C4: fan-out isolation and full-failure degradation.  Whenever the image
loads, `GeminiTextExtractor.extract` succeeds with a structurally valid
result; each sub-task whose backend call raises contributes an empty field,
each succeeding sub-task's field carries its (stripped) backend output; in
particular if every sub-task fails the result is all-empty, not an error;
and (when succeeding outputs are non-blank) a field is empty exactly when
its sub-task failed. -/
theorem fanout_isolation (backend : SubTask → Bytes → Except Unit String)
    (bs : Bytes)
    (hok : ∀ t s, backend t bs = .ok s → pyStrip s ≠ "") :
    ∃ r, GeminiTextExtractor.extract backend (.ok bs) = some r ∧
      (∀ t, backend t bs = .error () → r.field t = "") ∧
      (∀ t s, backend t bs = .ok s → r.field t = pyStrip s) ∧
      (∀ t, r.field t = "" ↔ backend t bs = .error ()) ∧
      ((∀ t, backend t bs = .error ()) → r = ⟨"", "", "", ""⟩) := by
  refine ⟨_, rfl, ?_, ?_, ?_, ?_⟩
  · intro t ht
    cases t <;> simp [TextExtractionResult.field, runSub, ht]
  · intro t s ht
    cases t <;> simp [TextExtractionResult.field, runSub, ht]
  · intro t
    have hfield : ({ ascii_diagram := runSub backend bs .ascii
                     markdown_text := runSub backend bs .markdown
                     description := runSub backend bs .descr
                     seo_keywords := runSub backend bs .seo } :
        TextExtractionResult).field t = runSub backend bs t := by
      cases t <;> rfl
    rw [hfield]
    rcases hb : backend t bs with e | s
    · cases e
      simp [runSub, hb]
    · simp only [runSub, hb]
      constructor
      · intro hs
        exact absurd hs (hok t s hb)
      · intro hcontra
        cases hcontra
  · intro hall
    have h1 := hall .ascii
    have h2 := hall .markdown
    have h3 := hall .descr
    have h4 := hall .seo
    simp [runSub, h1, h2, h3, h4]

theorem fanout_isolation_witness :
    (∀ t s, backendW t [7] = .ok s → pyStrip s ≠ "") ∧
    (∃ r, GeminiTextExtractor.extract backendW (.ok [7]) = some r ∧
      (∀ t, backendW t [7] = .error () → r.field t = "") ∧
      (∀ t s, backendW t [7] = .ok s → r.field t = pyStrip s) ∧
      (∀ t, r.field t = "" ↔ backendW t [7] = .error ()) ∧
      ((∀ t, backendW t [7] = .error ()) → r = ⟨"", "", "", ""⟩)) ∧
    GeminiTextExtractor.extract backendW (.ok [7]) = some ⟨"", "X", "Y", "Z"⟩ ∧
    GeminiTextExtractor.extract (fun _ _ => .error ()) (.ok [7])
      = some ⟨"", "", "", ""⟩ := by
  have hok : ∀ t s, backendW t [7] = .ok s → pyStrip s ≠ "" := by
    intro t s h
    cases t <;> simp [backendW] at h <;> rw [← h] <;> decide
  exact ⟨hok, fanout_isolation backendW [7] hok, rfl, rfl⟩

end OcrScanner
